import Mathlib

/-!
LerpBehaviour: a waypoint path follower

Shallow embedding of `src/Gameplay/Components/LerpBehaviour.cpp`.

Modelling conventions.
* `Lerp` and `Update` read a C++ `float` as an exact rational (`ℚ`); they fix the
  control flow: guard, branches, index arithmetic, lookups. `LerpWith` and
  `UpdateWith` are the same source lines with the four float operations taken
  from an `Arith` record; `binary32` rounds each operation to the nearest
  binary32 value, ties to even, with gradual underflow. Claims whose truth
  depends on rounding are settled against `binary32`. Infinities, NaN and a
  quotient by a zero `segmentTime` are outside both readings.
* `glm::vec3` is `Vec3`.  The glm/libm operations the component calls but does
  not define (`glm::length`, `acos`, `glm::angleAxis`, quaternion `*`) are the
  fields of a `Glm` record that `Update` takes as an argument; `Q` is the type
  of orientations (`glm::quat`).
* `points[i]` on a `std::vector` is `List` lookup returning `Option`; an
  out-of-range access makes `Update` return `none`.
* The owning game object (reached through `GetGameObject()`) is a field of the
  component state, holding the position, the rotation and the answer of
  `GetComponent<RigidBody>()`.
-/

namespace LerpBehaviour

/-- A `glm::vec3` with idealised components. -/
structure Vec3 where
  x : ℚ
  y : ℚ
  z : ℚ
  deriving DecidableEq

/-- Component-wise difference, the `operator-` of `glm::vec3`. -/
def Vec3.sub (a b : Vec3) : Vec3 := ⟨a.x - b.x, a.y - b.y, a.z - b.z⟩

/-- Component-wise negation, the unary `operator-` of `glm::vec3`. -/
def Vec3.neg (a : Vec3) : Vec3 := ⟨-a.x, -a.y, -a.z⟩

/-- The library operations used by `Update`, kept abstract. -/
structure Glm (Q : Type) where
  length : Vec3 → ℚ
  acos : ℚ → ℚ
  angleAxis : ℚ → Vec3 → Q
  mul : Q → Q → Q

/-- The part of the owning game object the component touches. -/
structure GameObject (Q : Type) where
  position : Vec3
  rotation : Q
  rigidBody : Option Nat
  deriving DecidableEq

/-- State of a `LerpBehaviour` component together with its owner. -/
structure State (Q : Type) where
  IsEnabled : Bool
  _body : Option Nat
  points : List Vec3
  segmentTime : ℚ
  clockwise : Bool
  currentInd : Nat
  currentTime : ℚ
  gameObject : GameObject Q
  deriving DecidableEq

/-- Source lines 8-15: `Lerp(point1, point2, t)`. -/
def Lerp (point1 point2 : Vec3) (t : ℚ) : Vec3 :=
  ⟨(1 - t) * point1.x + t * point2.x,
   (1 - t) * point1.y + t * point2.y,
   (1 - t) * point1.z + t * point2.z⟩

/-- Source lines 17-23: `Awake`. -/
def Awake {Q : Type} (s : State Q) : State Q :=
  let s1 := { s with _body := s.gameObject.rigidBody }
  if s1._body = none then { s1 with IsEnabled := false } else s1

/-- Source lines 113-118: `SetParams`. -/
def SetParams {Q : Type} (s : State Q) (inPoints : List Vec3) (inSegmentTime : ℚ)
    (inClockwise : Bool) : State Q :=
  { s with points := inPoints, segmentTime := inSegmentTime, clockwise := inClockwise }

/-- Source lines 55-63: the index after a boundary crossing. -/
def advanceInd (points : List Vec3) (currentInd : Nat) : Nat :=
  if currentInd = points.length - 1 then 0 else currentInd + 1

/-- Source lines 65-84: the three waypoints `p1, p2, p3` read at a crossing. -/
def turnPoints (points : List Vec3) (currentInd : Nat) : Option (Vec3 × Vec3 × Vec3) :=
  if currentInd = points.length - 1 then do
    let p1 ← points[currentInd]?
    let p2 ← points[0]?
    let p3 ← points[1]?
    pure (p1, p2, p3)
  else if currentInd = points.length - 2 then do
    let p1 ← points[currentInd]?
    let p2 ← points[currentInd + 1]?
    let p3 ← points[0]?
    pure (p1, p2, p3)
  else do
    let p1 ← points[currentInd]?
    let p2 ← points[currentInd + 1]?
    let p3 ← points[currentInd + 2]?
    pure (p1, p2, p3)

/-- Source lines 86-92: the angle computed from `p1, p2, p3`. -/
def turnAngle {Q : Type} (glm : Glm Q) (p : Vec3 × Vec3 × Vec3) : ℚ :=
  let origVec := p.2.1.sub p.1
  let newVec := p.2.2.sub p.2.1
  let lengths := glm.length origVec * glm.length newVec
  let dots := origVec.x * newVec.x + origVec.y * newVec.y + origVec.z * newVec.z
  let over := dots / lengths
  glm.acos over

/-- Source lines 96-100: the quaternion of the turn. -/
def angleQuat {Q : Type} (glm : Glm Q) (clockwise : Bool) (angle : ℚ) : Q :=
  if clockwise then glm.angleAxis angle ⟨0, -1, 0⟩ else glm.angleAxis angle ⟨0, 1, 0⟩

/-- Source lines 105-107: the position written at the end of `Update`. -/
def segmentPos (points : List Vec3) (currentInd : Nat) (t : ℚ) : Option Vec3 :=
  if currentInd = points.length - 1 then do
    let a ← points[currentInd]?
    let b ← points[0]?
    pure (Lerp a b t)
  else do
    let a ← points[currentInd]?
    let b ← points[currentInd + 1]?
    pure (Lerp a b t)

/-- Source lines 42-111: `Update(deltaTime)`. -/
def Update {Q : Type} (glm : Glm Q) (s : State Q) (deltaTime : ℚ) : Option (State Q) :=
  if s.points.length > 2 then
    let currentTime := s.currentTime + deltaTime
    let t := currentTime / s.segmentTime
    if t ≥ 1 then do
      let currentInd := advanceInd s.points s.currentInd
      let p ← turnPoints s.points currentInd
      let angle := turnAngle glm p
      let rotation := glm.mul s.gameObject.rotation (angleQuat glm s.clockwise angle)
      let position ← segmentPos s.points currentInd 0
      pure { s with
        currentInd := currentInd
        currentTime := 0
        gameObject := { s.gameObject with rotation := rotation, position := position } }
    else do
      let position ← segmentPos s.points s.currentInd t
      pure { s with
        currentTime := currentTime
        gameObject := { s.gameObject with position := position } }
  else
    some s

/-- A run of `Update` calls, one per entry of `deltas`, stopping at a failure. -/
def runUpdates {Q : Type} (glm : Glm Q) (s : State Q) : List ℚ → Option (State Q)
  | [] => some s
  | d :: ds => (Update glm s d).bind fun s1 => runUpdates glm s1 ds

/-- Whether `Update s deltaTime` takes the boundary-crossing branch. -/
def crosses {Q : Type} (s : State Q) (deltaTime : ℚ) : Prop :=
  (s.currentTime + deltaTime) / s.segmentTime ≥ 1

instance {Q : Type} (s : State Q) (deltaTime : ℚ) : Decidable (crosses s deltaTime) := by
  unfold crosses; infer_instance

/-- A concrete instance of the library operations in which an orientation is the
list of increments applied to it, an angle is named by its cosine, and the
length is the exact root when the squared norm is a square of a rational. -/
def logGlm : Glm (List (ℚ × Vec3)) where
  length v :=
    let q := v.x * v.x + v.y * v.y + v.z * v.z
    (Nat.sqrt q.num.natAbs : ℚ) / (Nat.sqrt q.den : ℚ)
  acos over := over
  angleAxis angle axis := [(angle, axis)]
  mul a b := a ++ b

/-- The square path of the scenario in the specification. -/
def squarePath : List Vec3 := [⟨0, 0, 0⟩, ⟨10, 0, 0⟩, ⟨10, 10, 0⟩, ⟨0, 10, 0⟩]

/-- A freshly configured follower of `squarePath`, one second per segment. -/
def squareStart : State (List (ℚ × Vec3)) :=
  { IsEnabled := true, _body := some 0, points := squarePath, segmentTime := 1,
    clockwise := false, currentInd := 0, currentTime := 0,
    gameObject := { position := ⟨0, 0, 0⟩, rotation := [], rigidBody := some 0 } }

/-- The component-wise average of two points (the "exact midpoint" of the specification). -/
def midpoint (a b : Vec3) : Vec3 := ⟨(a.x + b.x) / 2, (a.y + b.y) / 2, (a.z + b.z) / 2⟩

/-- A follower with only two waypoints, part of the way along. -/
def shortState : State (List (ℚ × Vec3)) :=
  { IsEnabled := true, _body := some 0, points := [⟨0, 0, 0⟩, ⟨4, 0, 0⟩], segmentTime := 1,
    clockwise := true, currentInd := 1, currentTime := 1 / 4,
    gameObject := { position := ⟨7, 8, 9⟩, rotation := [(1, ⟨0, 1, 0⟩)], rigidBody := some 0 } }

/-- An enabled follower whose owner carries no rigid body, before `Awake`. -/
def orphanStart : State (List (ℚ × Vec3)) :=
  { squareStart with
    _body := none
    gameObject := { squareStart.gameObject with rigidBody := none } }

/-- The follower of `squarePath` when it is leaving the last waypoint. -/
def squareLast : State (List (ℚ × Vec3)) := { squareStart with currentInd := 3 }

/-- The turn at waypoint `c` as the glossary of the specification words it: the
angle between the incoming direction `points[c] - points[(c-1) mod n]` and the
outgoing direction `points[(c+1) mod n] - points[c]`. -/
def cornerAngle {Q : Type} (glm : Glm Q) (points : List Vec3) (c : Nat) : Option ℚ := do
  let before ← points[(c + points.length - 1) % points.length]?
  let here ← points[c]?
  let after ← points[(c + 1) % points.length]?
  pure (turnAngle glm (before, here, after))

/-- A right triangle with sides 4, 3 and 5. -/
def trianglePath : List Vec3 := [⟨0, 0, 0⟩, ⟨4, 0, 0⟩, ⟨4, 3, 0⟩]

/-- A freshly configured follower of `trianglePath`, one second per segment. -/
def triangleStart : State (List (ℚ × Vec3)) := { squareStart with points := trianglePath }

/-- The four `float` operations used by the component. -/
structure Arith where
  add : ℚ → ℚ → ℚ
  sub : ℚ → ℚ → ℚ
  mul : ℚ → ℚ → ℚ
  div : ℚ → ℚ → ℚ

/-- Exact rational arithmetic, the reading used by `Lerp` and `Update`. -/
def exactArith : Arith where
  add x y := x + y
  sub x y := x - y
  mul x y := x * y
  div x y := x / y

/-- The binary32 exponent of `x`: the `e` with `2^e ≤ |x| < 2^(e+1)`, held at
`-126` on the subnormal range. -/
def expo32 (x : ℚ) : ℤ := max (Int.log 2 |x|) (-126)

/-- The spacing of binary32 values around `x` (24-bit significand). -/
def ulp32 (x : ℚ) : ℚ := (2 : ℚ) ^ (expo32 x - 23)

/-- Rounding to the nearest integer, ties to the even one. -/
def roundHalfEven (y : ℚ) : ℤ :=
  if y - ⌊y⌋ < 1 / 2 then ⌊y⌋
  else if 1 / 2 < y - ⌊y⌋ then ⌊y⌋ + 1
  else if ⌊y⌋ % 2 = 0 then ⌊y⌋ else ⌊y⌋ + 1

/-- Rounding of a rational to binary32: round to nearest, ties to even, with
gradual underflow. Overflow to infinity is not modelled. -/
def round32 (x : ℚ) : ℚ := roundHalfEven (x / ulp32 x) * ulp32 x

/-- IEEE binary32 arithmetic: each operation is the exact result, rounded. -/
def binary32 : Arith where
  add x y := round32 (x + y)
  sub x y := round32 (x - y)
  mul x y := round32 (x * y)
  div x y := round32 (x / y)

/-- Component-wise difference computed with `ar`. -/
def Vec3.subWith (ar : Arith) (a b : Vec3) : Vec3 :=
  ⟨ar.sub a.x b.x, ar.sub a.y b.y, ar.sub a.z b.z⟩

/-- Source lines 8-15 with the arithmetic `ar`. -/
def LerpWith (ar : Arith) (point1 point2 : Vec3) (t : ℚ) : Vec3 :=
  ⟨ar.add (ar.mul (ar.sub 1 t) point1.x) (ar.mul t point2.x),
   ar.add (ar.mul (ar.sub 1 t) point1.y) (ar.mul t point2.y),
   ar.add (ar.mul (ar.sub 1 t) point1.z) (ar.mul t point2.z)⟩

/-- Source lines 86-92 with the arithmetic `ar`. -/
def turnAngleWith {Q : Type} (ar : Arith) (glm : Glm Q) (p : Vec3 × Vec3 × Vec3) : ℚ :=
  let origVec := p.2.1.subWith ar p.1
  let newVec := p.2.2.subWith ar p.2.1
  let lengths := ar.mul (glm.length origVec) (glm.length newVec)
  let dots := ar.add (ar.add (ar.mul origVec.x newVec.x) (ar.mul origVec.y newVec.y))
    (ar.mul origVec.z newVec.z)
  let over := ar.div dots lengths
  glm.acos over

/-- Source lines 105-107 with the arithmetic `ar`. -/
def segmentPosWith (ar : Arith) (points : List Vec3) (currentInd : Nat) (t : ℚ) :
    Option Vec3 :=
  if currentInd = points.length - 1 then do
    let a ← points[currentInd]?
    let b ← points[0]?
    pure (LerpWith ar a b t)
  else do
    let a ← points[currentInd]?
    let b ← points[currentInd + 1]?
    pure (LerpWith ar a b t)

/-- Source lines 42-111 with the arithmetic `ar`. -/
def UpdateWith {Q : Type} (ar : Arith) (glm : Glm Q) (s : State Q) (deltaTime : ℚ) :
    Option (State Q) :=
  if s.points.length > 2 then
    let currentTime := ar.add s.currentTime deltaTime
    let t := ar.div currentTime s.segmentTime
    if t ≥ 1 then do
      let currentInd := advanceInd s.points s.currentInd
      let p ← turnPoints s.points currentInd
      let angle := turnAngleWith ar glm p
      let rotation := glm.mul s.gameObject.rotation (angleQuat glm s.clockwise angle)
      let position ← segmentPosWith ar s.points currentInd 0
      pure { s with
        currentInd := currentInd
        currentTime := 0
        gameObject := { s.gameObject with rotation := rotation, position := position } }
    else do
      let position ← segmentPosWith ar s.points s.currentInd t
      pure { s with
        currentTime := currentTime
        gameObject := { s.gameObject with position := position } }
  else
    some s

/-- A run of `UpdateWith` calls, one per entry of `deltas`. -/
def runWith {Q : Type} (ar : Arith) (glm : Glm Q) (s : State Q) :
    List ℚ → Option (State Q)
  | [] => some s
  | d :: ds => (UpdateWith ar glm s d).bind fun s1 => runWith ar glm s1 ds

/-- Whether `UpdateWith ar` takes the boundary-crossing branch: the test
`t >= 1.0f` of line 48 on the computed `t`. -/
def crossesWith {Q : Type} (ar : Arith) (s : State Q) (deltaTime : ℚ) : Prop :=
  ar.div (ar.add s.currentTime deltaTime) s.segmentTime ≥ 1

instance {Q : Type} (ar : Arith) (s : State Q) (deltaTime : ℚ) :
    Decidable (crossesWith ar s deltaTime) := by
  unfold crossesWith; infer_instance

/-- The number of boundary-crossing ticks in a run. -/
def crossCount {Q : Type} (ar : Arith) (glm : Glm Q) (s : State Q) : List ℚ → Nat
  | [] => 0
  | d :: ds =>
    (if crossesWith ar s d then 1 else 0) +
      match UpdateWith ar glm s d with
      | some s1 => crossCount ar glm s1 ds
      | none => 0

/-- One component of `Lerp` at `t = 0.5` in binary32: `fl(fl(0.5·x) + fl(0.5·y))`. -/
def halfSum32 (x y : ℚ) : ℚ := round32 (round32 (0.5 * x) + round32 (0.5 * y))

/-- The position `Lerp` yields at `t = 0.5` in binary32. -/
def midpoint32 (a b : Vec3) : Vec3 :=
  ⟨halfSum32 a.x b.x, halfSum32 a.y b.y, halfSum32 a.z b.z⟩

/-- The three operations of `halfSum32 x y` are exact. -/
def halfExact (x y : ℚ) : Prop :=
  round32 (0.5 * x) = 0.5 * x ∧ round32 (0.5 * y) = 0.5 * y ∧
    round32 (0.5 * x + 0.5 * y) = 0.5 * x + 0.5 * y

instance (x y : ℚ) : Decidable (halfExact x y) := by
  unfold halfExact; infer_instance

/-- A follower whose first two waypoints are `2^24` and `1` along `x`. -/
def wideStart : State (List (ℚ × Vec3)) :=
  { squareStart with points := [⟨16777216, 0, 0⟩, ⟨1, 0, 0⟩, ⟨0, 1, 0⟩] }

theorem advanceInd_eq_mod (points : List Vec3) (i : Nat) (hi : i < points.length) :
    advanceInd points i = (i + 1) % points.length := by
  unfold advanceInd
  split
  · next h =>
    have : i + 1 = points.length := by omega
    rw [this, Nat.mod_self]
  · next h =>
    rw [Nat.mod_eq_of_lt (by omega)]

theorem lookup_isSome (points : List Vec3) (i : Nat) (hi : i < points.length) :
    ∃ a, points[i]? = some a :=
  ⟨points[i], List.getElem?_eq_getElem hi⟩

theorem segmentPos_eq (points : List Vec3) (i : Nat) (a b : Vec3) (t : ℚ)
    (ha : points[i]? = some a) (hb : points[(i + 1) % points.length]? = some b) :
    segmentPos points i t = some (Lerp a b t) := by
  have hi : i < points.length := by
    rcases Nat.lt_or_ge i points.length with h | h
    · exact h
    · rw [List.getElem?_eq_none h] at ha; cases ha
  unfold segmentPos
  split
  · next h =>
    have h1 : i + 1 = points.length := by omega
    rw [h1, Nat.mod_self] at hb
    simp [ha, hb]
  · next h =>
    rw [Nat.mod_eq_of_lt (by omega)] at hb
    simp [ha, hb]

theorem turnPoints_eq (points : List Vec3) (i : Nat) (p1 p2 p3 : Vec3)
    (hn : 2 ≤ points.length)
    (h1 : points[i]? = some p1) (h2 : points[(i + 1) % points.length]? = some p2)
    (h3 : points[(i + 2) % points.length]? = some p3) :
    turnPoints points i = some (p1, p2, p3) := by
  have hi : i < points.length := by
    rcases Nat.lt_or_ge i points.length with h | h
    · exact h
    · rw [List.getElem?_eq_none h] at h1; cases h1
  unfold turnPoints
  split
  · next h =>
    have e1 : i + 1 = points.length := by omega
    have e2 : i + 2 = points.length + 1 := by omega
    rw [e1, Nat.mod_self] at h2
    rw [e2, Nat.add_mod_left, Nat.mod_eq_of_lt (by omega)] at h3
    simp [h1, h2, h3]
  · next h =>
    split
    · next h' =>
      have e2 : i + 2 = points.length := by omega
      rw [Nat.mod_eq_of_lt (by omega)] at h2
      rw [e2, Nat.mod_self] at h3
      simp [h1, h2, h3]
    · next h' =>
      rw [Nat.mod_eq_of_lt (by omega)] at h2
      rw [Nat.mod_eq_of_lt (by omega)] at h3
      simp [h1, h2, h3]

/-! ## The two branches of `Update` -/

theorem Update_short {Q : Type} (glm : Glm Q) (s : State Q) (deltaTime : ℚ)
    (hn : s.points.length ≤ 2) : Update glm s deltaTime = some s := by
  unfold Update
  rw [if_neg (by omega)]

theorem Update_cross {Q : Type} (glm : Glm Q) (s : State Q) (deltaTime : ℚ)
    (p1 p2 p3 : Vec3) (hn : 3 ≤ s.points.length) (hi : s.currentInd < s.points.length)
    (hc : crosses s deltaTime)
    (h1 : s.points[(s.currentInd + 1) % s.points.length]? = some p1)
    (h2 : s.points[(s.currentInd + 2) % s.points.length]? = some p2)
    (h3 : s.points[(s.currentInd + 3) % s.points.length]? = some p3) :
    Update glm s deltaTime = some { s with
      currentInd := (s.currentInd + 1) % s.points.length
      currentTime := 0
      gameObject := { s.gameObject with
        rotation := glm.mul s.gameObject.rotation
          (angleQuat glm s.clockwise (turnAngle glm (p1, p2, p3)))
        position := p1 } } := by
  have hadv := advanceInd_eq_mod s.points s.currentInd hi
  have e2 : ((s.currentInd + 1) % s.points.length + 1) % s.points.length
      = (s.currentInd + 2) % s.points.length := by
    rw [Nat.add_mod, Nat.mod_mod, ← Nat.add_mod]
  have e3 : ((s.currentInd + 1) % s.points.length + 2) % s.points.length
      = (s.currentInd + 3) % s.points.length := by
    rw [Nat.add_mod, Nat.mod_mod, ← Nat.add_mod]
  have htp : turnPoints s.points ((s.currentInd + 1) % s.points.length) = some (p1, p2, p3) :=
    turnPoints_eq s.points _ p1 p2 p3 (by omega) h1 (by rw [e2]; exact h2) (by rw [e3]; exact h3)
  have hsp : segmentPos s.points ((s.currentInd + 1) % s.points.length) 0 = some (Lerp p1 p2 0) :=
    segmentPos_eq s.points _ p1 p2 0 h1 (by rw [e2]; exact h2)
  have hl : Lerp p1 p2 0 = p1 := by
    cases p1; simp [Lerp]
  unfold crosses at hc
  unfold Update
  rw [if_pos (by omega)]
  simp only [hadv, if_pos hc, htp, hsp, hl]
  rfl

theorem Update_stay {Q : Type} (glm : Glm Q) (s : State Q) (deltaTime : ℚ)
    (a b : Vec3) (hn : 3 ≤ s.points.length) (hc : ¬ crosses s deltaTime)
    (ha : s.points[s.currentInd]? = some a)
    (hb : s.points[(s.currentInd + 1) % s.points.length]? = some b) :
    Update glm s deltaTime = some { s with
      currentTime := s.currentTime + deltaTime
      gameObject := { s.gameObject with
        position := Lerp a b ((s.currentTime + deltaTime) / s.segmentTime) } } := by
  have hsp := segmentPos_eq s.points s.currentInd a b
    ((s.currentTime + deltaTime) / s.segmentTime) ha hb
  unfold crosses at hc
  unfold Update
  rw [if_pos (by omega)]
  simp only [if_neg hc, hsp]
  rfl

/-! ## Consequences shared by the claims -/

theorem Update_cross_exists {Q : Type} (glm : Glm Q) (s : State Q) (deltaTime : ℚ)
    (hn : 3 ≤ s.points.length) (hi : s.currentInd < s.points.length)
    (hc : crosses s deltaTime) :
    ∃ p1 p2 p3,
      s.points[(s.currentInd + 1) % s.points.length]? = some p1 ∧
      s.points[(s.currentInd + 2) % s.points.length]? = some p2 ∧
      s.points[(s.currentInd + 3) % s.points.length]? = some p3 ∧
      Update glm s deltaTime = some { s with
        currentInd := (s.currentInd + 1) % s.points.length
        currentTime := 0
        gameObject := { s.gameObject with
          rotation := glm.mul s.gameObject.rotation
            (angleQuat glm s.clockwise (turnAngle glm (p1, p2, p3)))
          position := p1 } } := by
  have hpos : 0 < s.points.length := by omega
  obtain ⟨p1, h1⟩ := lookup_isSome s.points _ (Nat.mod_lt (s.currentInd + 1) hpos)
  obtain ⟨p2, h2⟩ := lookup_isSome s.points _ (Nat.mod_lt (s.currentInd + 2) hpos)
  obtain ⟨p3, h3⟩ := lookup_isSome s.points _ (Nat.mod_lt (s.currentInd + 3) hpos)
  exact ⟨p1, p2, p3, h1, h2, h3, Update_cross glm s deltaTime p1 p2 p3 hn hi hc h1 h2 h3⟩

theorem Update_stay_exists {Q : Type} (glm : Glm Q) (s : State Q) (deltaTime : ℚ)
    (hn : 3 ≤ s.points.length) (hi : s.currentInd < s.points.length)
    (hc : ¬ crosses s deltaTime) :
    ∃ a b,
      s.points[s.currentInd]? = some a ∧
      s.points[(s.currentInd + 1) % s.points.length]? = some b ∧
      Update glm s deltaTime = some { s with
        currentTime := s.currentTime + deltaTime
        gameObject := { s.gameObject with
          position := Lerp a b ((s.currentTime + deltaTime) / s.segmentTime) } } := by
  have hpos : 0 < s.points.length := by omega
  obtain ⟨a, ha⟩ := lookup_isSome s.points _ hi
  obtain ⟨b, hb⟩ := lookup_isSome s.points _ (Nat.mod_lt (s.currentInd + 1) hpos)
  exact ⟨a, b, ha, hb, Update_stay glm s deltaTime a b hn hc ha hb⟩

/-- One `Update` on a path of three or more points with a valid index succeeds,
keeps the configuration, and moves the index by one cyclic step exactly when the
tick crosses a boundary. -/
theorem Update_frame {Q : Type} (glm : Glm Q) (s : State Q) (deltaTime : ℚ)
    (hn : 3 ≤ s.points.length) (hi : s.currentInd < s.points.length) :
    ∃ s1, Update glm s deltaTime = some s1 ∧ s1.points = s.points ∧
      s1.segmentTime = s.segmentTime ∧ s1.clockwise = s.clockwise ∧
      s1.currentInd < s.points.length ∧
      s1.currentInd =
        (if crosses s deltaTime then (s.currentInd + 1) % s.points.length else s.currentInd) ∧
      s1.currentTime = (if crosses s deltaTime then 0 else s.currentTime + deltaTime) := by
  by_cases hc : crosses s deltaTime
  · obtain ⟨p1, p2, p3, -, -, -, hu⟩ := Update_cross_exists glm s deltaTime hn hi hc
    refine ⟨_, hu, rfl, rfl, rfl, ?_, ?_, ?_⟩
    · exact Nat.mod_lt _ (by omega)
    · simp [hc]
    · simp [hc]
  · obtain ⟨a, b, -, -, hu⟩ := Update_stay_exists glm s deltaTime hn hi hc
    refine ⟨_, hu, rfl, rfl, rfl, hi, ?_, ?_⟩
    · simp [hc]
    · simp [hc]

/-! ## Rounding to binary32 -/

theorem roundHalfEven_intCast (m : ℤ) : roundHalfEven (m : ℚ) = m := by
  unfold roundHalfEven
  rw [Int.floor_intCast, sub_self, if_pos (by norm_num)]

theorem roundHalfEven_tie_even (y : ℚ) (f : ℤ) (hy : y = f + 1 / 2) (he : f % 2 = 0) :
    roundHalfEven y = f := by
  have hf : ⌊y⌋ = f := by
    rw [Int.floor_eq_iff, hy]
    constructor <;> linarith
  unfold roundHalfEven
  rw [hf, hy]
  norm_num [he]

theorem expo32_normal (x : ℚ) (e : ℤ) (he : -126 ≤ e) (hlo : (2 : ℚ) ^ e ≤ |x|)
    (hhi : |x| < (2 : ℚ) ^ (e + 1)) : expo32 x = e := by
  have hpos : 0 < |x| := lt_of_lt_of_le (by positivity) hlo
  have h1 : e ≤ Int.log 2 |x| := by
    have := (Int.zpow_le_iff_le_log (b := 2) (by norm_num) (x := e) hpos).1 (by exact_mod_cast hlo)
    exact this
  have h2 : Int.log 2 |x| < e + 1 := by
    have := (Int.lt_zpow_iff_log_lt (b := 2) (by norm_num) (x := e + 1) hpos).1
      (by exact_mod_cast hhi)
    exact this
  unfold expo32
  rw [max_eq_left (by omega)]
  omega

theorem round32_zero : round32 0 = 0 := by
  unfold round32
  rw [zero_div]
  have := roundHalfEven_intCast 0
  simp only [Int.cast_zero] at this
  rw [this]
  simp

theorem round32_normal (x : ℚ) (e : ℤ) (he : -126 ≤ e) (hlo : (2 : ℚ) ^ e ≤ |x|)
    (hhi : |x| < (2 : ℚ) ^ (e + 1)) :
    round32 x = roundHalfEven (x / (2 : ℚ) ^ (e - 23)) * (2 : ℚ) ^ (e - 23) := by
  unfold round32 ulp32
  rw [expo32_normal x e he hlo hhi]

/-- A value `m * 2^(e-23)` with a 24-bit significand `m` is left unchanged. -/
theorem round32_exact (m e : ℤ) (he : -126 ≤ e) (hlo : (2 : ℤ) ^ 23 ≤ |m|)
    (hhi : |m| < (2 : ℤ) ^ 24) :
    round32 ((m : ℚ) * (2 : ℚ) ^ (e - 23)) = (m : ℚ) * (2 : ℚ) ^ (e - 23) := by
  have hp : (0 : ℚ) < (2 : ℚ) ^ (e - 23) := by positivity
  have habs : |(m : ℚ) * (2 : ℚ) ^ (e - 23)| = (|m| : ℤ) * (2 : ℚ) ^ (e - 23) := by
    rw [abs_mul, abs_of_pos hp, Int.cast_abs]
  have e1 : (2 : ℚ) ^ e = (2 : ℚ) ^ (23 : ℤ) * (2 : ℚ) ^ (e - 23) := by
    rw [← zpow_add₀ (by norm_num : (2 : ℚ) ≠ 0)]; congr 1; ring
  have e2 : (2 : ℚ) ^ (e + 1) = (2 : ℚ) ^ (24 : ℤ) * (2 : ℚ) ^ (e - 23) := by
    rw [← zpow_add₀ (by norm_num : (2 : ℚ) ≠ 0)]; congr 1; ring
  have hlo' : ((2 : ℚ) ^ (23 : ℤ)) ≤ ((|m| : ℤ) : ℚ) := by
    have : ((2 ^ 23 : ℤ) : ℚ) ≤ ((|m| : ℤ) : ℚ) := by exact_mod_cast hlo
    norm_num at this ⊢
    exact this
  have hhi' : ((|m| : ℤ) : ℚ) < (2 : ℚ) ^ (24 : ℤ) := by
    have : ((|m| : ℤ) : ℚ) < ((2 ^ 24 : ℤ) : ℚ) := by exact_mod_cast hhi
    norm_num at this ⊢
    exact this
  rw [round32_normal _ e he (by rw [habs, e1]; exact mul_le_mul_of_nonneg_right hlo' hp.le)
    (by rw [habs, e2]; exact mul_lt_mul_of_pos_right hhi' hp)]
  rw [mul_div_assoc, div_self hp.ne', mul_one, roundHalfEven_intCast]

theorem round32_half : round32 (1 / 2) = 1 / 2 := by
  have := round32_exact (2 ^ 23) (-1) (by norm_num) (by norm_num) (by norm_num)
  norm_num at this
  exact this

theorem round32_one : round32 1 = 1 := by
  have := round32_exact (2 ^ 23) 0 (by norm_num) (by norm_num) (by norm_num)
  norm_num at this
  exact this

theorem round32_two_pow_23 : round32 8388608 = 8388608 := by
  have := round32_exact (2 ^ 23) 23 (by norm_num) (by norm_num) (by norm_num)
  norm_num at this
  exact this

theorem round32_five : round32 5 = 5 := by
  have := round32_exact 10485760 2 (by norm_num) (by norm_num) (by norm_num)
  norm_num at this
  exact this

/-- The tie `2^23 + 1/2` goes to the even neighbour `2^23`. -/
theorem round32_tie : round32 (8388608 + 1 / 2) = 8388608 := by
  rw [round32_normal (8388608 + 1 / 2) 23 (by norm_num) (by norm_num [abs_of_pos])
    (by norm_num [abs_of_pos])]
  have hk : roundHalfEven ((8388608 + 1 / 2) / (2 : ℚ) ^ (23 - 23 : ℤ)) = 8388608 := by
    apply roundHalfEven_tie_even
    · norm_num
    · norm_num
  rw [hk]
  norm_num

theorem segmentPosWith_eq (ar : Arith) (points : List Vec3) (i : Nat) (a b : Vec3) (t : ℚ)
    (ha : points[i]? = some a) (hb : points[(i + 1) % points.length]? = some b) :
    segmentPosWith ar points i t = some (LerpWith ar a b t) := by
  have hi : i < points.length := by
    rcases Nat.lt_or_ge i points.length with h | h
    · exact h
    · rw [List.getElem?_eq_none h] at ha; cases ha
  unfold segmentPosWith
  split
  · next h =>
    have h1 : i + 1 = points.length := by omega
    rw [h1, Nat.mod_self] at hb
    simp [ha, hb]
  · next h =>
    rw [Nat.mod_eq_of_lt (by omega)] at hb
    simp [ha, hb]

theorem UpdateWith_cross {Q : Type} (ar : Arith) (glm : Glm Q) (s : State Q) (deltaTime : ℚ)
    (p1 p2 p3 : Vec3) (hn : 3 ≤ s.points.length) (hi : s.currentInd < s.points.length)
    (hc : crossesWith ar s deltaTime)
    (h1 : s.points[(s.currentInd + 1) % s.points.length]? = some p1)
    (h2 : s.points[(s.currentInd + 2) % s.points.length]? = some p2)
    (h3 : s.points[(s.currentInd + 3) % s.points.length]? = some p3) :
    UpdateWith ar glm s deltaTime = some { s with
      currentInd := (s.currentInd + 1) % s.points.length
      currentTime := 0
      gameObject := { s.gameObject with
        rotation := glm.mul s.gameObject.rotation
          (angleQuat glm s.clockwise (turnAngleWith ar glm (p1, p2, p3)))
        position := LerpWith ar p1 p2 0 } } := by
  have hadv := advanceInd_eq_mod s.points s.currentInd hi
  have e2 : ((s.currentInd + 1) % s.points.length + 1) % s.points.length
      = (s.currentInd + 2) % s.points.length := by
    rw [Nat.add_mod, Nat.mod_mod, ← Nat.add_mod]
  have e3 : ((s.currentInd + 1) % s.points.length + 2) % s.points.length
      = (s.currentInd + 3) % s.points.length := by
    rw [Nat.add_mod, Nat.mod_mod, ← Nat.add_mod]
  have htp : turnPoints s.points ((s.currentInd + 1) % s.points.length) = some (p1, p2, p3) :=
    turnPoints_eq s.points _ p1 p2 p3 (by omega) h1 (by rw [e2]; exact h2) (by rw [e3]; exact h3)
  have hsp : segmentPosWith ar s.points ((s.currentInd + 1) % s.points.length) 0
      = some (LerpWith ar p1 p2 0) :=
    segmentPosWith_eq ar s.points _ p1 p2 0 h1 (by rw [e2]; exact h2)
  unfold crossesWith at hc
  unfold UpdateWith
  rw [if_pos (by omega)]
  simp only [hadv, if_pos hc, htp, hsp]
  rfl

theorem UpdateWith_stay {Q : Type} (ar : Arith) (glm : Glm Q) (s : State Q) (deltaTime : ℚ)
    (a b : Vec3) (hn : 3 ≤ s.points.length) (hc : ¬ crossesWith ar s deltaTime)
    (ha : s.points[s.currentInd]? = some a)
    (hb : s.points[(s.currentInd + 1) % s.points.length]? = some b) :
    UpdateWith ar glm s deltaTime = some { s with
      currentTime := ar.add s.currentTime deltaTime
      gameObject := { s.gameObject with
        position := LerpWith ar a b
          (ar.div (ar.add s.currentTime deltaTime) s.segmentTime) } } := by
  have hsp := segmentPosWith_eq ar s.points s.currentInd a b
    (ar.div (ar.add s.currentTime deltaTime) s.segmentTime) ha hb
  unfold crossesWith at hc
  unfold UpdateWith
  rw [if_pos (by omega)]
  simp only [if_neg hc, hsp]
  rfl

/-- With any arithmetic, one `UpdateWith` on three or more points with a valid
index succeeds, keeps the configuration, and moves the index by one cyclic step
exactly when the tick takes the crossing branch. -/
theorem UpdateWith_frame {Q : Type} (ar : Arith) (glm : Glm Q) (s : State Q) (deltaTime : ℚ)
    (hn : 3 ≤ s.points.length) (hi : s.currentInd < s.points.length) :
    ∃ s1, UpdateWith ar glm s deltaTime = some s1 ∧ s1.points = s.points ∧
      s1.segmentTime = s.segmentTime ∧
      s1.currentInd < s.points.length ∧
      s1.currentInd =
        (if crossesWith ar s deltaTime then (s.currentInd + 1) % s.points.length
          else s.currentInd) ∧
      s1.currentTime =
        (if crossesWith ar s deltaTime then 0 else ar.add s.currentTime deltaTime) := by
  have hpos : 0 < s.points.length := by omega
  by_cases hc : crossesWith ar s deltaTime
  · obtain ⟨p1, h1⟩ := lookup_isSome s.points _ (Nat.mod_lt (s.currentInd + 1) hpos)
    obtain ⟨p2, h2⟩ := lookup_isSome s.points _ (Nat.mod_lt (s.currentInd + 2) hpos)
    obtain ⟨p3, h3⟩ := lookup_isSome s.points _ (Nat.mod_lt (s.currentInd + 3) hpos)
    refine ⟨_, UpdateWith_cross ar glm s deltaTime p1 p2 p3 hn hi hc h1 h2 h3,
      rfl, rfl, ?_, ?_, ?_⟩
    · exact Nat.mod_lt _ hpos
    · simp [hc]
    · simp [hc]
  · obtain ⟨a, ha⟩ := lookup_isSome s.points _ hi
    obtain ⟨b, hb⟩ := lookup_isSome s.points _ (Nat.mod_lt (s.currentInd + 1) hpos)
    refine ⟨_, UpdateWith_stay ar glm s deltaTime a b hn hc ha hb, rfl, rfl, hi, ?_, ?_⟩
    · simp [hc]
    · simp [hc]

/-- With exact arithmetic `UpdateWith` is `Update`. -/
theorem UpdateWith_exact {Q : Type} (glm : Glm Q) (s : State Q) (deltaTime : ℚ) :
    UpdateWith exactArith glm s deltaTime = Update glm s deltaTime := rfl

/-- A tick of one segment time from stored time 0 crosses in binary32. -/
theorem crossesWith_full_tick {Q : Type} (s : State Q) (hseg : 0 < s.segmentTime)
    (hfl : round32 s.segmentTime = s.segmentTime) (ht : s.currentTime = 0) :
    crossesWith binary32 s s.segmentTime := by
  unfold crossesWith
  show round32 (round32 (s.currentTime + s.segmentTime) / s.segmentTime) ≥ 1
  rw [ht, zero_add, hfl, div_self hseg.ne', round32_one]

/-- In binary32, `k` ticks of one segment time each, from stored time 0, advance
the index by `k` cyclic steps and leave the stored time at 0. -/
theorem runWith_full_ticks {Q : Type} (glm : Glm Q) (k : Nat) :
    ∀ s : State Q, 3 ≤ s.points.length → s.currentInd < s.points.length →
      0 < s.segmentTime → round32 s.segmentTime = s.segmentTime → s.currentTime = 0 →
      ∃ s1, runWith binary32 glm s (List.replicate k s.segmentTime) = some s1 ∧
        s1.points = s.points ∧ s1.segmentTime = s.segmentTime ∧ s1.currentTime = 0 ∧
        s1.currentInd = (s.currentInd + k) % s.points.length := by
  induction k with
  | zero =>
    intro s _ hi _ _ ht
    exact ⟨s, rfl, rfl, rfl, ht, by rw [Nat.add_zero, Nat.mod_eq_of_lt hi]⟩
  | succ k ih =>
    intro s hn hi hseg hfl ht
    have hc := crossesWith_full_tick s hseg hfl ht
    obtain ⟨s1, hu, hp, hs, hlt, hind, htime⟩ :=
      UpdateWith_frame binary32 glm s s.segmentTime hn hi
    rw [if_pos hc] at hind htime
    obtain ⟨s2, hr, hp2, hs2, ht2, hi2⟩ := ih s1 (by rw [hp]; exact hn)
      (by rw [hp]; exact hlt) (by rw [hs]; exact hseg) (by rw [hs]; exact hfl) htime
    refine ⟨s2, ?_, by rw [hp2, hp], by rw [hs2, hs], ht2, ?_⟩
    · rw [List.replicate_succ]
      unfold runWith
      rw [hu]
      rw [hs] at hr
      exact hr
    · rw [hi2, hind, hp, Nat.add_mod, Nat.mod_mod, ← Nat.add_mod]
      congr 1
      omega

/-! ## C1 -/

/-- C1: when the waypoint list has length 0, 1 or 2, any number of `Update`
calls with any `deltaTime` values returns the state it was given: position,
rotation, `currentInd` and `currentTime` are all unchanged. -/
theorem noop_short_path {Q : Type} (glm : Glm Q) (s : State Q) (deltas : List ℚ)
    (hn : s.points.length ≤ 2) : runUpdates glm s deltas = some s := by
  induction deltas with
  | nil => rfl
  | cons d ds ih =>
    unfold runUpdates
    rw [Update_short glm s d hn]
    exact ih

theorem noop_short_path_witness :
    shortState.points.length ≤ 2 ∧
      runUpdates logGlm shortState [1 / 2, 3, 0, 100] = some shortState :=
  ⟨by decide, noop_short_path logGlm shortState [1 / 2, 3, 0, 100] (by decide)⟩

/-! ## C2 -/

/-- C2, as the code behaves: from a fresh follower of the square path with a
one-second segment and `clockwise = false`, `Update(0.5)` puts the object at
`(5,0,0)`, and the following `Update(0.6)` crosses the boundary: `currentInd`
becomes 1, `currentTime` is reset to 0 (the overshoot of 0.1 is dropped), the
position is waypoint 1, `(10,0,0)`, and exactly one increment about `(0,1,0)` is
multiplied onto the rotation from the right. -/
theorem scenario_square {Q : Type} (glm : Glm Q) (s : State Q)
    (hp : s.points = squarePath) (hseg : s.segmentTime = 1) (hcw : s.clockwise = false)
    (hi : s.currentInd = 0) (ht : s.currentTime = 0) :
    Update glm s (1 / 2) = some { s with
        currentTime := 1 / 2
        gameObject := { s.gameObject with position := ⟨5, 0, 0⟩ } } ∧
    runUpdates glm s [1 / 2, 3 / 5] = some { s with
        currentInd := 1
        currentTime := 0
        gameObject := { s.gameObject with
          position := ⟨10, 0, 0⟩
          rotation := glm.mul s.gameObject.rotation
            (glm.angleAxis
              (glm.acos (0 / (glm.length ⟨0, 10, 0⟩ * glm.length ⟨-10, 0, 0⟩))) ⟨0, 1, 0⟩) } } := by
  have hfirst : Update glm s (1 / 2) = some { s with
        currentTime := 1 / 2
        gameObject := { s.gameObject with position := ⟨5, 0, 0⟩ } } := by
    have h := Update_stay glm s (1 / 2) ⟨0, 0, 0⟩ ⟨10, 0, 0⟩ (by rw [hp]; decide)
      (by unfold crosses; rw [ht, hseg]; norm_num)
      (by rw [hp, hi]; rfl) (by rw [hp, hi]; rfl)
    rw [h, ht, hseg]
    norm_num [Lerp]
  refine ⟨hfirst, ?_⟩
  unfold runUpdates
  rw [hfirst]
  simp only [Option.some_bind]
  unfold runUpdates
  have h := Update_cross glm ({ s with
        currentTime := 1 / 2
        gameObject := { s.gameObject with position := ⟨5, 0, 0⟩ } }) (3 / 5)
      ⟨10, 0, 0⟩ ⟨10, 10, 0⟩ ⟨0, 10, 0⟩ (by show 3 ≤ s.points.length; rw [hp]; decide)
      (by show s.currentInd < s.points.length; rw [hp, hi]; decide)
      (by unfold crosses; show (1 / 2 + 3 / 5 : ℚ) / s.segmentTime ≥ 1; rw [hseg]; norm_num)
      (by show s.points[(s.currentInd + 1) % s.points.length]? = _; rw [hp, hi]; rfl)
      (by show s.points[(s.currentInd + 2) % s.points.length]? = _; rw [hp, hi]; rfl)
      (by show s.points[(s.currentInd + 3) % s.points.length]? = _; rw [hp, hi]; rfl)
  rw [h]
  simp only [Option.some_bind, runUpdates, hp, hi, hcw]
  norm_num [angleQuat, turnAngle, Vec3.sub, squarePath]

theorem scenario_square_witness :
    runUpdates logGlm squareStart [1 / 2, 3 / 5] = some { squareStart with
        currentInd := 1
        currentTime := 0
        gameObject := { squareStart.gameObject with
          position := ⟨10, 0, 0⟩
          rotation := logGlm.mul squareStart.gameObject.rotation
            (logGlm.angleAxis
              (logGlm.acos (0 / (logGlm.length ⟨0, 10, 0⟩ * logGlm.length ⟨-10, 0, 0⟩)))
              ⟨0, 1, 0⟩) } } :=
  (scenario_square logGlm squareStart rfl rfl rfl rfl rfl).2

/-- C2 as stated fails: after `Update(0.5)` and `Update(0.6)` on the square path
the stored time is 0 and the position is `(10,0,0)`, not `0.1` and `(10,1,0)`. -/
theorem scenario_square_counterexample :
    runUpdates logGlm squareStart [1 / 2, 3 / 5] = some { squareStart with
        currentInd := 1
        currentTime := 0
        gameObject :=
          { position := ⟨10, 0, 0⟩, rotation := [(0, ⟨0, 1, 0⟩)], rigidBody := some 0 } } ∧
    ¬ ∃ s1, runUpdates logGlm squareStart [1 / 2, 3 / 5] = some s1 ∧ s1.currentInd = 1 ∧
        s1.currentTime = 1 / 10 ∧ s1.gameObject.position = ⟨10, 1, 0⟩ := by
  have hrun : runUpdates logGlm squareStart [1 / 2, 3 / 5] = some { squareStart with
        currentInd := 1
        currentTime := 0
        gameObject :=
          { position := ⟨10, 0, 0⟩, rotation := [(0, ⟨0, 1, 0⟩)], rigidBody := some 0 } } := by
    simp [runUpdates, Update, squareStart, squarePath, segmentPos, Lerp, advanceInd,
      turnPoints, turnAngle, angleQuat, logGlm, Vec3.sub]
    norm_num [Option.bind]
  refine ⟨hrun, ?_⟩
  rintro ⟨s1, h1, -, h2, -⟩
  rw [hrun] at h1
  cases h1
  norm_num at h2

/-! ## C3 -/

/-- C3, as the binary32 code behaves: on a path of three or more waypoints with
valid index `i` and positive `segmentTime`, an `Update` whose stored time comes
to `0.5 * segmentTime` succeeds without a boundary crossing and sets each
component of the position to `fl(fl(0.5·a) + fl(0.5·b))`, where
`a = points[i]`, `b = points[(i+1) mod n]` and `fl` rounds to binary32. Any
`Update` that leaves the stored time at `0.5 * segmentTime` did not move the
index and set that position. It is the component-wise average whenever the
three operations are exact in every component. -/
theorem midpoint_rounded {Q : Type} (glm : Glm Q) (s : State Q) (deltaTime : ℚ)
    (a b : Vec3) (hn : 3 ≤ s.points.length) (hseg : 0 < s.segmentTime)
    (ha : s.points[s.currentInd]? = some a)
    (hb : s.points[(s.currentInd + 1) % s.points.length]? = some b) :
    (round32 (s.currentTime + deltaTime) = 0.5 * s.segmentTime →
      UpdateWith binary32 glm s deltaTime = some { s with
        currentTime := 0.5 * s.segmentTime
        gameObject := { s.gameObject with position := midpoint32 a b } }) ∧
    (∀ s1, UpdateWith binary32 glm s deltaTime = some s1 →
      s1.currentTime = 0.5 * s.segmentTime →
      s1.currentInd = s.currentInd ∧ s1.gameObject.position = midpoint32 a b) ∧
    (halfExact a.x b.x → halfExact a.y b.y → halfExact a.z b.z →
      midpoint32 a b = midpoint a b) := by
  have hi : s.currentInd < s.points.length := by
    rcases Nat.lt_or_ge s.currentInd s.points.length with h | h
    · exact h
    · rw [List.getElem?_eq_none h] at ha; cases ha
  have hne : s.segmentTime ≠ 0 := ne_of_gt hseg
  have hratio : round32 (0.5 * s.segmentTime / s.segmentTime) = 1 / 2 := by
    have : 0.5 * s.segmentTime / s.segmentTime = 1 / 2 := by
      field_simp; norm_num
    rw [this, round32_half]
  have hlerp : LerpWith binary32 a b (1 / 2) = midpoint32 a b := by
    have h1 : round32 (1 - 1 / 2) = 1 / 2 := by
      rw [show (1 : ℚ) - 1 / 2 = 1 / 2 by norm_num, round32_half]
    have h05 : (0.5 : ℚ) = 1 / 2 := by norm_num
    show (⟨round32 (round32 (round32 (1 - 1 / 2) * a.x) + round32 (1 / 2 * b.x)),
      round32 (round32 (round32 (1 - 1 / 2) * a.y) + round32 (1 / 2 * b.y)),
      round32 (round32 (round32 (1 - 1 / 2) * a.z) + round32 (1 / 2 * b.z))⟩ : Vec3) =
      ⟨round32 (round32 (0.5 * a.x) + round32 (0.5 * b.x)),
       round32 (round32 (0.5 * a.y) + round32 (0.5 * b.y)),
       round32 (round32 (0.5 * a.z) + round32 (0.5 * b.z))⟩
    rw [h1, h05]
  have hstay : round32 (s.currentTime + deltaTime) = 0.5 * s.segmentTime →
      ¬ crossesWith binary32 s deltaTime := by
    intro hh
    unfold crossesWith
    show ¬ round32 (round32 (s.currentTime + deltaTime) / s.segmentTime) ≥ 1
    rw [hh, hratio]
    norm_num
  refine ⟨?_, ?_, ?_⟩
  · intro hh
    rw [UpdateWith_stay binary32 glm s deltaTime a b hn (hstay hh) ha hb]
    show some { s with
        currentTime := round32 (s.currentTime + deltaTime)
        gameObject := { s.gameObject with
          position := LerpWith binary32 a b
            (round32 (round32 (s.currentTime + deltaTime) / s.segmentTime)) } } = _
    rw [hh, hratio, hlerp]
  · intro s1 hu hh
    by_cases hc : crossesWith binary32 s deltaTime
    · exfalso
      obtain ⟨s2, hu2, -, -, -, -, htime⟩ := UpdateWith_frame binary32 glm s deltaTime hn hi
      rw [hu] at hu2
      cases hu2
      rw [if_pos hc] at htime
      rw [htime] at hh
      have : (0 : ℚ) < 0.5 * s.segmentTime := by positivity
      linarith
    · rw [UpdateWith_stay binary32 glm s deltaTime a b hn hc ha hb] at hu
      cases hu
      have hh' : round32 (s.currentTime + deltaTime) = 0.5 * s.segmentTime := hh
      refine ⟨rfl, ?_⟩
      show LerpWith binary32 a b
        (round32 (round32 (s.currentTime + deltaTime) / s.segmentTime)) = _
      rw [hh', hratio, hlerp]
  · rintro ⟨x1, x2, x3⟩ ⟨y1, y2, y3⟩ ⟨z1, z2, z3⟩
    unfold midpoint32 halfSum32 midpoint
    rw [x1, x2, x3, y1, y2, y3, z1, z2, z3]
    congr 1 <;> ring

theorem midpoint_rounded_witness :
    UpdateWith binary32 logGlm squareStart (1 / 2) = some { squareStart with
        currentTime := 0.5 * squareStart.segmentTime
        gameObject := { squareStart.gameObject with
          position := midpoint32 ⟨0, 0, 0⟩ ⟨10, 0, 0⟩ } } ∧
    midpoint32 ⟨0, 0, 0⟩ ⟨10, 0, 0⟩ = midpoint ⟨0, 0, 0⟩ ⟨10, 0, 0⟩ :=
  ⟨(midpoint_rounded logGlm squareStart (1 / 2) ⟨0, 0, 0⟩ ⟨10, 0, 0⟩ (by decide)
      (by simp [squareStart]) rfl rfl).1
      (by norm_num [squareStart, round32_half]),
   (midpoint_rounded logGlm squareStart (1 / 2) ⟨0, 0, 0⟩ ⟨10, 0, 0⟩ (by decide)
      (by simp [squareStart]) rfl rfl).2.2
      (by norm_num [halfExact, round32_zero, round32_five])
      (by norm_num [halfExact, round32_zero])
      (by norm_num [halfExact, round32_zero])⟩

/-- C3 as stated fails in binary32: between `x = 2^24` and `x = 1`, with
`segmentTime = 1`, `Update(0.5)` stores `0.5 * segmentTime` without crossing and
sets `x = 8388608`, while the exact midpoint has `x = 8388608.5`. -/
theorem midpoint_counterexample :
    UpdateWith binary32 logGlm wideStart (1 / 2) = some { wideStart with
        currentTime := 0.5 * wideStart.segmentTime
        gameObject := { wideStart.gameObject with position := ⟨8388608, 0, 0⟩ } } ∧
    midpoint ⟨16777216, 0, 0⟩ ⟨1, 0, 0⟩ = ⟨16777217 / 2, 0, 0⟩ ∧
    (⟨8388608, 0, 0⟩ : Vec3) ≠ midpoint ⟨16777216, 0, 0⟩ ⟨1, 0, 0⟩ := by
  have hmid : midpoint ⟨16777216, 0, 0⟩ ⟨1, 0, 0⟩ = ⟨16777217 / 2, 0, 0⟩ := by
    norm_num [midpoint]
  have hseg : wideStart.segmentTime = 1 := rfl
  have htime : wideStart.currentTime = 0 := rfl
  have hstay : ¬ crossesWith binary32 wideStart (1 / 2) := by
    unfold crossesWith
    show ¬ round32 (round32 (wideStart.currentTime + 1 / 2) / wideStart.segmentTime) ≥ 1
    rw [hseg, htime, zero_add, round32_half, div_one, round32_half]
    norm_num
  have hlerp : LerpWith binary32 ⟨16777216, 0, 0⟩ ⟨1, 0, 0⟩ (1 / 2) = ⟨8388608, 0, 0⟩ := by
    show (⟨round32 (round32 (round32 (1 - 1 / 2) * 16777216) + round32 (1 / 2 * 1)),
      round32 (round32 (round32 (1 - 1 / 2) * 0) + round32 (1 / 2 * 0)),
      round32 (round32 (round32 (1 - 1 / 2) * 0) + round32 (1 / 2 * 0))⟩ : Vec3) = _
    rw [show (1 : ℚ) - 1 / 2 = 1 / 2 by norm_num, round32_half,
      show (1 / 2 : ℚ) * 16777216 = 8388608 by norm_num, round32_two_pow_23,
      show (1 / 2 : ℚ) * 1 = 1 / 2 by norm_num, round32_half, round32_tie,
      show (1 / 2 : ℚ) * 0 = 0 by norm_num, round32_zero, add_zero, round32_zero]
  refine ⟨?_, hmid, ?_⟩
  · rw [UpdateWith_stay binary32 logGlm wideStart (1 / 2) ⟨16777216, 0, 0⟩ ⟨1, 0, 0⟩
      (by decide) hstay rfl rfl]
    show some { wideStart with
        currentTime := round32 (wideStart.currentTime + 1 / 2)
        gameObject := { wideStart.gameObject with
          position := LerpWith binary32 ⟨16777216, 0, 0⟩ ⟨1, 0, 0⟩
            (round32 (round32 (wideStart.currentTime + 1 / 2) / wideStart.segmentTime)) } } = _
    rw [hseg, htime, zero_add, round32_half, div_one, round32_half, hlerp]
    norm_num
  · rw [hmid]
    intro h
    have := congrArg Vec3.x h
    norm_num at this

/-! ## C4 -/

/-- C5: on a waypoint list of length `n ≥ 3`, starting from any valid index (in
particular 0), every finite run of `Update` calls with arbitrary `deltaTime`
values succeeds and ends with `currentInd ≤ n-1` on the same list; and a
boundary-crossing `Update` at index `n-1` moves the index to 0. -/
theorem currentInd_valid {Q : Type} (glm : Glm Q) (s : State Q) (deltas : List ℚ)
    (hn : 3 ≤ s.points.length) (hi : s.currentInd < s.points.length) :
    (∃ s1, runUpdates glm s deltas = some s1 ∧ s1.points = s.points ∧
      s1.currentInd ≤ s.points.length - 1) ∧
    (∀ deltaTime, crosses s deltaTime → s.currentInd = s.points.length - 1 →
      ∃ s1, Update glm s deltaTime = some s1 ∧ s1.currentInd = 0) := by
  constructor
  · induction deltas generalizing s with
    | nil => exact ⟨s, rfl, rfl, by omega⟩
    | cons d ds ih =>
      obtain ⟨s1, hu, hp, -, -, hlt, -, -⟩ := Update_frame glm s d hn hi
      obtain ⟨s2, hr, hp2, hle⟩ := ih s1 (by rw [hp]; exact hn) (by rw [hp]; exact hlt)
      refine ⟨s2, ?_, ?_, ?_⟩
      · unfold runUpdates
        rw [hu]
        exact hr
      · rw [hp2, hp]
      · rw [hp] at hle; exact hle
  · intro deltaTime hc hlast
    obtain ⟨s1, hu, -, -, -, -, hind, -⟩ := Update_frame glm s deltaTime hn hi
    refine ⟨s1, hu, ?_⟩
    rw [hind, if_pos hc]
    have e : s.currentInd + 1 = s.points.length := by omega
    rw [e, Nat.mod_self]

theorem currentInd_valid_witness :
    (∃ s1, runUpdates logGlm squareLast [1, 1, 1 / 2, 1, 7, 1] = some s1 ∧
      s1.points = squareLast.points ∧ s1.currentInd ≤ squareLast.points.length - 1) ∧
    (∃ s1, Update logGlm squareLast 1 = some s1 ∧ s1.currentInd = 0) :=
  ⟨(currentInd_valid logGlm squareLast [1, 1, 1 / 2, 1, 7, 1] (by decide) (by decide)).1,
   (currentInd_valid logGlm squareLast [] (by decide) (by decide)).2 1
      (by norm_num [crosses, squareLast, squareStart]) rfl⟩

/-! ## C6 -/

theorem crosses_iff {Q : Type} (s : State Q) (deltaTime : ℚ) (hseg : 0 < s.segmentTime) :
    crosses s deltaTime ↔ s.segmentTime ≤ s.currentTime + deltaTime := by
  unfold crosses
  rw [ge_iff_le, le_div_iff₀ hseg, one_mul]

theorem crossCount_cons {Q : Type} (ar : Arith) (glm : Glm Q) (s s1 : State Q) (d : ℚ)
    (ds : List ℚ) (hu : UpdateWith ar glm s d = some s1) :
    crossCount ar glm s (d :: ds)
      = (if crossesWith ar s d then 1 else 0) + crossCount ar glm s1 ds := by
  show (if crossesWith ar s d then 1 else 0) +
      (match UpdateWith ar glm s d with
        | some s1 => crossCount ar glm s1 ds
        | none => 0) = _
  rw [hu]

/-- With any arithmetic, a run from a valid index succeeds and advances the
index by the number of crossing ticks, cyclically. -/
theorem runWith_index {Q : Type} (ar : Arith) (glm : Glm Q) (deltas : List ℚ) :
    ∀ s : State Q, 3 ≤ s.points.length → s.currentInd < s.points.length →
      ∃ s1, runWith ar glm s deltas = some s1 ∧ s1.points = s.points ∧
        s1.currentInd = (s.currentInd + crossCount ar glm s deltas) % s.points.length := by
  induction deltas with
  | nil =>
    intro s _ hi
    exact ⟨s, rfl, rfl, by rw [crossCount, Nat.add_zero, Nat.mod_eq_of_lt hi]⟩
  | cons d ds ih =>
    intro s hn hi
    obtain ⟨s1, hu, hp, -, hlt, hind, -⟩ := UpdateWith_frame ar glm s d hn hi
    obtain ⟨s2, hr, hp2, hi2⟩ := ih s1 (by rw [hp]; exact hn) (by rw [hp]; exact hlt)
    refine ⟨s2, ?_, by rw [hp2, hp], ?_⟩
    · unfold runWith
      rw [hu]
      exact hr
    · rw [hi2, hp, crossCount_cons ar glm s s1 d ds hu, hind]
      by_cases hc : crossesWith ar s d
      · rw [if_pos hc, if_pos hc, Nat.add_mod, Nat.mod_mod, ← Nat.add_mod]
        congr 1
        omega
      · rw [if_neg hc, if_neg hc, Nat.zero_add]

theorem cyclic_return (n i k : Nat) (hi : i < n) : (i + k) % n = i ↔ n ∣ k := by
  constructor
  · intro h
    have h1 : (i + k) % n = (i + 0) % n := by
      rw [h, Nat.add_zero, Nat.mod_eq_of_lt hi]
    have h2 : k % n = 0 % n := Nat.ModEq.add_left_cancel' i h1
    rw [Nat.zero_mod] at h2
    exact Nat.dvd_of_mod_eq_zero h2
  · rintro ⟨c, rfl⟩
    rw [Nat.add_mul_mod_self_left, Nat.mod_eq_of_lt hi]

/-- C6, as the code behaves: on a path of `n ≥ 3` waypoints with a valid index,
every run of `Update` calls succeeds and ends at index `(start + k) mod n`,
where `k` is the number of boundary-crossing calls in the run, whatever float
arithmetic is used; so `currentInd` is back at its starting value exactly when
`k` is a multiple of `n`. In particular, in binary32, `n` calls with
`deltaTime = segmentTime` from stored time 0 bring it back. -/
theorem full_cycle_by_crossings {Q : Type} (ar : Arith) (glm : Glm Q) (s : State Q)
    (deltas : List ℚ) (hn : 3 ≤ s.points.length) (hi : s.currentInd < s.points.length) :
    (∃ s1, runWith ar glm s deltas = some s1 ∧
      s1.currentInd = (s.currentInd + crossCount ar glm s deltas) % s.points.length ∧
      (s1.currentInd = s.currentInd ↔ s.points.length ∣ crossCount ar glm s deltas)) ∧
    (0 < s.segmentTime → round32 s.segmentTime = s.segmentTime → s.currentTime = 0 →
      ∃ s1, runWith binary32 glm s (List.replicate s.points.length s.segmentTime) = some s1 ∧
        s1.currentInd = s.currentInd) := by
  constructor
  · obtain ⟨s1, hr, -, hind⟩ := runWith_index ar glm deltas s hn hi
    refine ⟨s1, hr, hind, ?_⟩
    rw [hind]
    exact cyclic_return _ _ _ hi
  · intro hseg hfl ht
    obtain ⟨s1, hr, -, -, -, hind⟩ :=
      runWith_full_ticks glm s.points.length s hn hi hseg hfl ht
    refine ⟨s1, hr, ?_⟩
    rw [hind, Nat.add_mod_right, Nat.mod_eq_of_lt hi]

theorem full_cycle_by_crossings_witness :
    (∃ s1, runWith binary32 logGlm squareStart [1 / 2, 1, 4, 1 / 2, 1 / 2, 1] = some s1 ∧
      s1.currentInd = (squareStart.currentInd
        + crossCount binary32 logGlm squareStart [1 / 2, 1, 4, 1 / 2, 1 / 2, 1])
          % squareStart.points.length ∧
      (s1.currentInd = squareStart.currentInd ↔
        squareStart.points.length
          ∣ crossCount binary32 logGlm squareStart [1 / 2, 1, 4, 1 / 2, 1 / 2, 1])) ∧
    (∃ s1, runWith binary32 logGlm squareStart
        (List.replicate squareStart.points.length squareStart.segmentTime) = some s1 ∧
      s1.currentInd = squareStart.currentInd) :=
  ⟨(full_cycle_by_crossings binary32 logGlm squareStart [1 / 2, 1, 4, 1 / 2, 1 / 2, 1]
      (by decide) (by decide)).1,
   (full_cycle_by_crossings binary32 logGlm squareStart [] (by decide) (by decide)).2
      (by norm_num [squareStart]) (by simp [squareStart, round32_one]) rfl⟩

/-- C6 as stated fails: one `Update(4)` on the four-point square path with a
one-second segment has `deltaTime` sum `4 = n * segmentTime`, yet the index ends
at 1, not at its starting value 0. -/
theorem full_cycle_counterexample :
    ([4] : List ℚ).sum = squareStart.points.length * squareStart.segmentTime ∧
    runUpdates logGlm squareStart [4] = some { squareStart with
        currentInd := 1
        currentTime := 0
        gameObject :=
          { position := ⟨10, 0, 0⟩, rotation := [(0, ⟨0, 1, 0⟩)], rigidBody := some 0 } } ∧
    ¬ ∃ s1, runUpdates logGlm squareStart [4] = some s1 ∧
        s1.currentInd = squareStart.currentInd := by
  have hrun : runUpdates logGlm squareStart [4] = some { squareStart with
        currentInd := 1
        currentTime := 0
        gameObject :=
          { position := ⟨10, 0, 0⟩, rotation := [(0, ⟨0, 1, 0⟩)], rigidBody := some 0 } } := by
    simp [runUpdates, Update, squareStart, squarePath, segmentPos, Lerp, advanceInd,
      turnPoints, turnAngle, angleQuat, logGlm, Vec3.sub]
  refine ⟨by norm_num [squareStart, squarePath], hrun, ?_⟩
  rintro ⟨s1, h1, h2⟩
  rw [hrun] at h1
  cases h1
  simp [squareStart] at h2

/-! ## C7 -/

/-- Whatever the index, a successful `Update` on three or more points stores 0
on a crossing tick and the accumulated time otherwise. -/
theorem Update_time {Q : Type} (glm : Glm Q) (s s1 : State Q) (deltaTime : ℚ)
    (hn : 3 ≤ s.points.length) (hu : Update glm s deltaTime = some s1) :
    s1.currentTime = (if crosses s deltaTime then 0 else s.currentTime + deltaTime) := by
  unfold Update at hu
  rw [if_pos (by omega)] at hu
  by_cases hc : crosses s deltaTime
  · rw [if_pos hc]
    have hc' : (s.currentTime + deltaTime) / s.segmentTime ≥ 1 := hc
    simp only [if_pos hc'] at hu
    cases htp : turnPoints s.points (advanceInd s.points s.currentInd) with
    | none => rw [htp] at hu; cases hu
    | some p =>
      rw [htp] at hu
      cases hsp : segmentPos s.points (advanceInd s.points s.currentInd) 0 with
      | none => simp [hsp] at hu
      | some pos =>
        simp [hsp] at hu
        rw [← hu]
  · rw [if_neg hc]
    have hc' : ¬ (s.currentTime + deltaTime) / s.segmentTime ≥ 1 := hc
    simp only [if_neg hc'] at hu
    cases hsp : segmentPos s.points s.currentInd
        ((s.currentTime + deltaTime) / s.segmentTime) with
    | none => simp [hsp] at hu
    | some pos =>
      simp [hsp] at hu
      rw [← hu]

/-- C7: on a path of `n ≥ 3` waypoints with positive `segmentTime`, non-negative
stored time and non-negative `deltaTime`, `Update` succeeds whenever the index
is valid, and the time it stores satisfies `0 ≤ currentTime < segmentTime`. -/
theorem elapsed_in_range {Q : Type} (glm : Glm Q) (s : State Q) (deltaTime : ℚ)
    (hn : 3 ≤ s.points.length) (hseg : 0 < s.segmentTime) (h0 : 0 ≤ s.currentTime)
    (hd : 0 ≤ deltaTime) :
    (s.currentInd < s.points.length → ∃ s1, Update glm s deltaTime = some s1) ∧
    (∀ s1, Update glm s deltaTime = some s1 →
      0 ≤ s1.currentTime ∧ s1.currentTime < s.segmentTime) := by
  constructor
  · intro hi
    obtain ⟨s1, hu, -⟩ := Update_frame glm s deltaTime hn hi
    exact ⟨s1, hu⟩
  · intro s1 hu
    have ht := Update_time glm s s1 deltaTime hn hu
    by_cases hc : crosses s deltaTime
    · rw [if_pos hc] at ht
      rw [ht]
      exact ⟨le_refl 0, hseg⟩
    · rw [if_neg hc] at ht
      rw [crosses_iff s deltaTime hseg] at hc
      rw [ht]
      exact ⟨by linarith, lt_of_not_ge hc⟩

theorem elapsed_in_range_witness :
    (∃ s1, Update logGlm squareStart (5 / 2) = some s1) ∧
    (∀ s1, Update logGlm squareStart (5 / 2) = some s1 →
      0 ≤ s1.currentTime ∧ s1.currentTime < squareStart.segmentTime) :=
  ⟨(elapsed_in_range logGlm squareStart (5 / 2) (by decide) (by norm_num [squareStart])
      (by norm_num [squareStart]) (by norm_num)).1 (by decide),
   (elapsed_in_range logGlm squareStart (5 / 2) (by decide) (by norm_num [squareStart])
      (by norm_num [squareStart]) (by norm_num)).2⟩

/-! ## C8 -/

/-- C8, as the code behaves: `SetParams` stores its three arguments verbatim,
whatever they are, and changes nothing else; in particular `currentInd` and
`currentTime` keep the values they had before the call. -/
theorem SetParams_stores {Q : Type} (s : State Q) (inPoints : List Vec3)
    (inSegmentTime : ℚ) (inClockwise : Bool) :
    (SetParams s inPoints inSegmentTime inClockwise).points = inPoints ∧
    (SetParams s inPoints inSegmentTime inClockwise).segmentTime = inSegmentTime ∧
    (SetParams s inPoints inSegmentTime inClockwise).clockwise = inClockwise ∧
    (SetParams s inPoints inSegmentTime inClockwise).currentInd = s.currentInd ∧
    (SetParams s inPoints inSegmentTime inClockwise).currentTime = s.currentTime ∧
    (SetParams s inPoints inSegmentTime inClockwise).IsEnabled = s.IsEnabled ∧
    (SetParams s inPoints inSegmentTime inClockwise)._body = s._body ∧
    (SetParams s inPoints inSegmentTime inClockwise).gameObject = s.gameObject :=
  ⟨rfl, rfl, rfl, rfl, rfl, rfl, rfl, rfl⟩

/-- C8 as stated fails: called on a follower at index 3, `SetParams` leaves the
index at 3 and does not reset it to 0. -/
theorem SetParams_counterexample :
    (SetParams squareLast [⟨0, 0, 0⟩, ⟨1, 0, 0⟩, ⟨1, 1, 0⟩] 2 true).currentInd = 3 ∧
    ¬ ((SetParams squareLast [⟨0, 0, 0⟩, ⟨1, 0, 0⟩, ⟨1, 1, 0⟩] 2 true).currentInd = 0 ∧
       (SetParams squareLast [⟨0, 0, 0⟩, ⟨1, 0, 0⟩, ⟨1, 1, 0⟩] 2 true).currentTime = 0) := by
  refine ⟨rfl, ?_⟩
  rintro ⟨h, -⟩
  have h3 : (SetParams squareLast [⟨0, 0, 0⟩, ⟨1, 0, 0⟩, ⟨1, 1, 0⟩] 2 true).currentInd = 3 := rfl
  rw [h3] at h
  cases h

/-! ## C9 -/

/-- C9: on a path of `n ≥ 3` waypoints with a valid index, take a
boundary-crossing `Update` in two runs that differ only in the `clockwise` flag.
Both succeed, and there is one angle `θ` such that the clockwise run multiplies
`angleAxis(θ, (0,-1,0))` onto the rotation from the right and the other run
multiplies `angleAxis(θ, (0,1,0))`. The two axes are opposite, so in any
library where `angleAxis` about the opposite axis is the inverse rotation the
two increments are inverse to each other. Position, index and stored time of
the two results agree. -/
theorem rotation_direction {Q : Type} (glm : Glm Q) (s : State Q) (deltaTime : ℚ)
    (hn : 3 ≤ s.points.length) (hi : s.currentInd < s.points.length)
    (hc : crosses s deltaTime) :
    ∃ (θ : ℚ) (cw ccw : State Q),
      Update glm { s with clockwise := true } deltaTime = some cw ∧
      Update glm { s with clockwise := false } deltaTime = some ccw ∧
      cw.gameObject.rotation = glm.mul s.gameObject.rotation (glm.angleAxis θ ⟨0, -1, 0⟩) ∧
      ccw.gameObject.rotation = glm.mul s.gameObject.rotation (glm.angleAxis θ ⟨0, 1, 0⟩) ∧
      (⟨0, -1, 0⟩ : Vec3) = Vec3.neg ⟨0, 1, 0⟩ ∧
      (∀ inv : Q → Q, (∀ a v, glm.angleAxis a (Vec3.neg v) = inv (glm.angleAxis a v)) →
        glm.angleAxis θ ⟨0, -1, 0⟩ = inv (glm.angleAxis θ ⟨0, 1, 0⟩)) ∧
      cw.gameObject.position = ccw.gameObject.position ∧
      cw.currentInd = ccw.currentInd ∧ cw.currentTime = ccw.currentTime := by
  obtain ⟨p1, p2, p3, h1, h2, h3, -⟩ := Update_cross_exists glm s deltaTime hn hi hc
  have hcw := Update_cross glm { s with clockwise := true } deltaTime p1 p2 p3 hn hi hc h1 h2 h3
  have hccw := Update_cross glm { s with clockwise := false } deltaTime p1 p2 p3 hn hi hc h1 h2 h3
  have hax : (⟨0, -1, 0⟩ : Vec3) = Vec3.neg ⟨0, 1, 0⟩ := by
    norm_num [Vec3.neg]
  refine ⟨turnAngle glm (p1, p2, p3), _, _, hcw, hccw, rfl, rfl, hax, ?_, rfl, rfl, rfl⟩
  intro inv hinv
  rw [hax]
  exact hinv _ _

theorem rotation_direction_witness :
    ∃ (θ : ℚ) (cw ccw : State (List (ℚ × Vec3))),
      Update logGlm { squareStart with clockwise := true } 1 = some cw ∧
      Update logGlm { squareStart with clockwise := false } 1 = some ccw ∧
      cw.gameObject.rotation
        = logGlm.mul squareStart.gameObject.rotation (logGlm.angleAxis θ ⟨0, -1, 0⟩) ∧
      ccw.gameObject.rotation
        = logGlm.mul squareStart.gameObject.rotation (logGlm.angleAxis θ ⟨0, 1, 0⟩) ∧
      (⟨0, -1, 0⟩ : Vec3) = Vec3.neg ⟨0, 1, 0⟩ ∧
      (∀ inv : List (ℚ × Vec3) → List (ℚ × Vec3),
        (∀ a v, logGlm.angleAxis a (Vec3.neg v) = inv (logGlm.angleAxis a v)) →
        logGlm.angleAxis θ ⟨0, -1, 0⟩ = inv (logGlm.angleAxis θ ⟨0, 1, 0⟩)) ∧
      cw.gameObject.position = ccw.gameObject.position ∧
      cw.currentInd = ccw.currentInd ∧ cw.currentTime = ccw.currentTime :=
  rotation_direction logGlm squareStart 1 (by decide) (by decide)
    (by norm_num [crosses, squareStart])

/-! ## C10 -/

/-- C10: `Awake` always returns a state (it cannot fail). It stores the result
of the rigid-body lookup in `_body`; if the lookup found nothing, `IsEnabled` is
false afterwards; if it found a body, `IsEnabled` keeps its previous value and
`_body` holds that body. Hence for a component that was enabled, `IsEnabled` is
false afterwards if and only if the owner has no rigid body. Nothing else
changes. -/
theorem Awake_soft_failure {Q : Type} (s : State Q) :
    (Awake s)._body = s.gameObject.rigidBody ∧
    (s.gameObject.rigidBody = none → (Awake s).IsEnabled = false) ∧
    (∀ b, s.gameObject.rigidBody = some b →
      (Awake s).IsEnabled = s.IsEnabled ∧ (Awake s)._body = some b) ∧
    (s.IsEnabled = true → ((Awake s).IsEnabled = false ↔ s.gameObject.rigidBody = none)) ∧
    (Awake s).points = s.points ∧ (Awake s).segmentTime = s.segmentTime ∧
    (Awake s).clockwise = s.clockwise ∧ (Awake s).currentInd = s.currentInd ∧
    (Awake s).currentTime = s.currentTime ∧ (Awake s).gameObject = s.gameObject := by
  cases hb : s.gameObject.rigidBody with
  | none =>
    have : Awake s = { s with _body := none, IsEnabled := false } := by
      simp [Awake, hb]
    rw [this]
    simp
  | some b =>
    have : Awake s = { s with _body := some b } := by
      simp [Awake, hb]
    rw [this]
    simp

theorem Awake_soft_failure_witness :
    (Awake orphanStart).IsEnabled = false ∧
    ((Awake squareStart).IsEnabled = squareStart.IsEnabled ∧
      (Awake squareStart)._body = some 0) :=
  ⟨(Awake_soft_failure orphanStart).2.1 rfl, (Awake_soft_failure squareStart).2.2.1 0 rfl⟩

/-! ## C11 -/

theorem logGlm_length_sq (x y z r : ℕ) (h : x * x + y * y + z * z = r * r)
    (a b c : ℚ) (ha : a * a = (x * x : ℕ)) (hb : b * b = (y * y : ℕ))
    (hc : c * c = (z * z : ℕ)) :
    logGlm.length ⟨a, b, c⟩ = r := by
  have hq : a * a + b * b + c * c = ((r * r : ℕ) : ℚ) := by
    rw [ha, hb, hc, ← h]; push_cast; ring
  show (Nat.sqrt (a * a + b * b + c * c).num.natAbs : ℚ)
    / (Nat.sqrt (a * a + b * b + c * c).den : ℚ) = r
  rw [hq, Rat.num_natCast, Rat.den_natCast, Int.natAbs_ofNat, Nat.sqrt_eq, Nat.sqrt_one]
  simp

/-- The angle applied at a crossing is the corner angle of the waypoint after
the one just reached. -/
theorem turn_looks_ahead {Q : Type} (glm : Glm Q) (s : State Q) (deltaTime : ℚ)
    (hn : 3 ≤ s.points.length) (hi : s.currentInd < s.points.length)
    (hc : crosses s deltaTime) :
    ∃ s1 θ, Update glm s deltaTime = some s1 ∧
      cornerAngle glm s.points ((s1.currentInd + 1) % s.points.length) = some θ ∧
      s1.gameObject.rotation
        = glm.mul s.gameObject.rotation (angleQuat glm s.clockwise θ) := by
  obtain ⟨p1, p2, p3, h1, h2, h3, hu⟩ := Update_cross_exists glm s deltaTime hn hi hc
  have hpos : 0 < s.points.length := by omega
  have e2 : ((s.currentInd + 1) % s.points.length + 1) % s.points.length
      = (s.currentInd + 2) % s.points.length := by
    rw [Nat.add_mod, Nat.mod_mod, ← Nat.add_mod]
  have e3 : ((s.currentInd + 2) % s.points.length + 1) % s.points.length
      = (s.currentInd + 3) % s.points.length := by
    rw [Nat.add_mod, Nat.mod_mod, ← Nat.add_mod]
  have e1 : ((s.currentInd + 2) % s.points.length + s.points.length - 1) % s.points.length
      = (s.currentInd + 1) % s.points.length := by
    have hlt := Nat.mod_lt (s.currentInd + 2) hpos
    have hstep : ((s.currentInd + 1) % s.points.length + 1) % s.points.length
        = (s.currentInd + 2) % s.points.length := e2
    have hlt1 := Nat.mod_lt (s.currentInd + 1) hpos
    rcases Nat.lt_or_ge ((s.currentInd + 1) % s.points.length + 1) s.points.length with h | h
    · rw [Nat.mod_eq_of_lt h] at hstep
      rw [← hstep]
      have : (s.currentInd + 1) % s.points.length + 1 + s.points.length - 1
          = (s.currentInd + 1) % s.points.length + s.points.length := by omega
      rw [this, Nat.add_mod_right, Nat.mod_mod]
    · have e : (s.currentInd + 1) % s.points.length + 1 = s.points.length := by omega
      rw [e, Nat.mod_self] at hstep
      rw [← hstep]
      have : 0 + s.points.length - 1 = (s.currentInd + 1) % s.points.length := by omega
      rw [this, Nat.mod_mod]
  refine ⟨_, turnAngle glm (p1, p2, p3), hu, ?_, rfl⟩
  show cornerAngle glm s.points (((s.currentInd + 1) % s.points.length + 1) % s.points.length)
    = _
  rw [e2]
  unfold cornerAngle
  rw [e1, e3, h1, h2, h3]
  rfl

/-- C13 on the right triangle `(0,0,0), (4,0,0), (4,3,0)`: the crossing that
arrives at waypoint 1 applies the angle with cosine `-3/5`, which is the corner
angle of waypoint 2, while the corner angle of waypoint 1, between the segment
just traversed and the one about to be traversed, has cosine `0`. -/
theorem turn_at_crossed_waypoint_fails :
    Update logGlm triangleStart 1 = some { triangleStart with
        currentInd := 1
        currentTime := 0
        gameObject :=
          { position := ⟨4, 0, 0⟩, rotation := [(-3 / 5, ⟨0, 1, 0⟩)], rigidBody := some 0 } } ∧
    cornerAngle logGlm trianglePath 1 = some 0 ∧
    cornerAngle logGlm trianglePath 2 = some (-3 / 5) := by
  have l3 : logGlm.length ⟨0, 3, 0⟩ = 3 := by
    have := logGlm_length_sq 0 3 0 3 (by norm_num) 0 3 0 (by norm_num) (by norm_num)
      (by norm_num)
    simpa using this
  have l5 : logGlm.length ⟨-4, -3, 0⟩ = 5 := by
    have := logGlm_length_sq 4 3 0 5 (by norm_num) (-4) (-3) 0 (by norm_num) (by norm_num)
      (by norm_num)
    simpa using this
  have hang : turnAngle logGlm (⟨4, 0, 0⟩, ⟨4, 3, 0⟩, ⟨0, 0, 0⟩) = -3 / 5 := by
    have e1 : Vec3.sub ⟨4, 3, 0⟩ ⟨4, 0, 0⟩ = ⟨0, 3, 0⟩ := by norm_num [Vec3.sub]
    have e2 : Vec3.sub ⟨0, 0, 0⟩ ⟨4, 3, 0⟩ = ⟨-4, -3, 0⟩ := by norm_num [Vec3.sub]
    show logGlm.acos _ = _
    simp only [e1, e2, l3, l5]
    norm_num [logGlm]
  have hang0 : turnAngle logGlm (⟨0, 0, 0⟩, ⟨4, 0, 0⟩, ⟨4, 3, 0⟩) = 0 := by
    show logGlm.acos _ = _
    norm_num [logGlm, Vec3.sub]
  refine ⟨?_, ?_, ?_⟩
  · have h := Update_cross logGlm triangleStart 1 ⟨4, 0, 0⟩ ⟨4, 3, 0⟩ ⟨0, 0, 0⟩ (by decide)
      (by decide) (by norm_num [crosses, triangleStart, squareStart]) rfl rfl rfl
    rw [h, hang]
    rfl
  · show (do
      let before ← trianglePath[(1 + trianglePath.length - 1) % trianglePath.length]?
      let here ← trianglePath[1]?
      let after ← trianglePath[(1 + 1) % trianglePath.length]?
      pure (turnAngle logGlm (before, here, after))) = some 0
    rw [← hang0]
    rfl
  · show (do
      let before ← trianglePath[(2 + trianglePath.length - 1) % trianglePath.length]?
      let here ← trianglePath[2]?
      let after ← trianglePath[(2 + 1) % trianglePath.length]?
      pure (turnAngle logGlm (before, here, after))) = some (-3 / 5)
    rw [← hang]
    rfl

/-! ## C14 -/

/-- C15: on a path of `n ≥ 3` waypoints with valid index and positive
`segmentTime`, an `Update` whose accumulated ratio reaches `t ≥ 1` succeeds,
stores `currentTime = 0` exactly and sets the position exactly to
`points[c]` for the new index `c = (i + 1) mod n`; the result is the same for
every `deltaTime` that reaches the boundary, so the excess is not carried on. -/
theorem overshoot_discarded {Q : Type} (glm : Glm Q) (s : State Q) (deltaTime : ℚ)
    (hn : 3 ≤ s.points.length) (hi : s.currentInd < s.points.length)
    (_ : 0 < s.segmentTime)
    (hc : (s.currentTime + deltaTime) / s.segmentTime ≥ 1) :
    ∃ s1 p, Update glm s deltaTime = some s1 ∧
      s1.currentTime = 0 ∧
      s1.currentInd = (s.currentInd + 1) % s.points.length ∧
      s.points[s1.currentInd]? = some p ∧
      s1.gameObject.position = p ∧
      (∀ other : ℚ, (s.currentTime + other) / s.segmentTime ≥ 1 →
        Update glm s other = some s1) := by
  obtain ⟨p1, p2, p3, h1, h2, h3, hu⟩ := Update_cross_exists glm s deltaTime hn hi hc
  refine ⟨_, p1, hu, rfl, rfl, h1, rfl, ?_⟩
  intro other ho
  exact Update_cross glm s other p1 p2 p3 hn hi ho h1 h2 h3

theorem overshoot_discarded_witness :
    ∃ s1 p, Update logGlm squareStart (7 / 2) = some s1 ∧
      s1.currentTime = 0 ∧
      s1.currentInd = (squareStart.currentInd + 1) % squareStart.points.length ∧
      squareStart.points[s1.currentInd]? = some p ∧
      s1.gameObject.position = p ∧
      (∀ other : ℚ, (squareStart.currentTime + other) / squareStart.segmentTime ≥ 1 →
        Update logGlm squareStart other = some s1) :=
  overshoot_discarded logGlm squareStart (7 / 2) (by decide) (by decide)
    (by norm_num [squareStart]) (by norm_num [squareStart])

/-! ## C16 -/

theorem lookup_none (points : List Vec3) (i : Nat) (hi : points.length ≤ i) :
    points[i]? = none :=
  List.getElem?_eq_none hi

/-- C16: on a waypoint list of length `n ≥ 3`, if `currentInd ≤ n-1` before the
call then every lookup made by `Update` is in range: the three points read at
a crossing, the two segment ends read afterwards, and so `Update` itself,
return a value. If instead `currentInd ≥ n` before the call, `Update` runs into
an out-of-range lookup whatever `deltaTime` is. -/
theorem index_safety {Q : Type} (glm : Glm Q) (s : State Q) (deltaTime : ℚ)
    (hn : 3 ≤ s.points.length) :
    (s.currentInd < s.points.length →
      (turnPoints s.points (advanceInd s.points s.currentInd)).isSome = true ∧
      (segmentPos s.points (advanceInd s.points s.currentInd) 0).isSome = true ∧
      (∀ t, (segmentPos s.points s.currentInd t).isSome = true) ∧
      (Update glm s deltaTime).isSome = true) ∧
    (s.points.length ≤ s.currentInd → Update glm s deltaTime = none) := by
  have hpos : 0 < s.points.length := by omega
  constructor
  · intro hi
    have hadv := advanceInd_eq_mod s.points s.currentInd hi
    have e2 : ((s.currentInd + 1) % s.points.length + 1) % s.points.length
        = (s.currentInd + 2) % s.points.length := by
      rw [Nat.add_mod, Nat.mod_mod, ← Nat.add_mod]
    have e3 : ((s.currentInd + 1) % s.points.length + 2) % s.points.length
        = (s.currentInd + 3) % s.points.length := by
      rw [Nat.add_mod, Nat.mod_mod, ← Nat.add_mod]
    obtain ⟨a, ha⟩ := lookup_isSome s.points _ hi
    obtain ⟨p1, h1⟩ := lookup_isSome s.points _ (Nat.mod_lt (s.currentInd + 1) hpos)
    obtain ⟨p2, h2⟩ := lookup_isSome s.points _ (Nat.mod_lt (s.currentInd + 2) hpos)
    obtain ⟨p3, h3⟩ := lookup_isSome s.points _ (Nat.mod_lt (s.currentInd + 3) hpos)
    refine ⟨?_, ?_, ?_, ?_⟩
    · rw [hadv, turnPoints_eq s.points _ p1 p2 p3 (by omega) h1 (by rw [e2]; exact h2)
        (by rw [e3]; exact h3)]
      rfl
    · rw [hadv, segmentPos_eq s.points _ p1 p2 0 h1 (by rw [e2]; exact h2)]
      rfl
    · intro t
      rw [segmentPos_eq s.points _ a p1 t ha h1]
      rfl
    · obtain ⟨s1, hu, -⟩ := Update_frame glm s deltaTime hn hi
      rw [hu]
      rfl
  · intro hi
    have hnone : ∀ t, segmentPos s.points s.currentInd t = none := by
      intro t
      unfold segmentPos
      rw [if_neg (by omega), lookup_none s.points _ hi]
      rfl
    have hturn : turnPoints s.points (advanceInd s.points s.currentInd) = none := by
      have hadv : advanceInd s.points s.currentInd = s.currentInd + 1 := by
        unfold advanceInd
        rw [if_neg (by omega)]
      rw [hadv]
      unfold turnPoints
      rw [if_neg (by omega), if_neg (by omega), lookup_none s.points _ (by omega)]
      rfl
    unfold Update
    rw [if_pos (by omega)]
    by_cases hc : (s.currentTime + deltaTime) / s.segmentTime ≥ 1
    · simp only [if_pos hc, hturn]
      rfl
    · simp only [if_neg hc, hnone]
      rfl

theorem index_safety_witness :
    (Update logGlm squareLast 1).isSome = true ∧
    Update logGlm (SetParams squareLast trianglePath 1 false) 1 = none :=
  ⟨((index_safety logGlm squareLast 1 (by decide)).1 (by decide)).2.2.2,
   (index_safety logGlm (SetParams squareLast trianglePath 1 false) 1 (by decide)).2
     (by decide)⟩

end LerpBehaviour
